import Mathlib

/-!
Shallow embedding of `src/contracts/Biotech_Clinical_Trial_Fhe.sol`
(contract `BiotechClinicalTrialFhe`).

Modelling decisions, each tied to the source:

* Addresses, `uint256` words and `bytes32` handles are `Nat`.
* An `euint32` FHE ciphertext is modelled as a handle (`Nat`, where handle
  `0` is the uninitialized value, matching `FHE.isInitialized`) together
  with a ghost semantic value `val < 2^32`; `FHE.add` wraps modulo `2^32`
  and allocates a fresh handle from a counter (`nextHandle`), so distinct
  accumulation states have distinct handles, as on the FHEVM coprocessor.
* `keccak256(abi.encode(cts, address(this)))` in `_hashCiphertexts` is
  modelled as a free constructor `B32.keccakEnc cts addr` of an inductive
  hash type whose other constructor `B32.word n` covers raw storage words
  (default `B32.word 0`).  This is the standard collision-free idealization
  of keccak: two hashes are equal iff their preimages are, and no hash
  collides with a raw word.
* Solidity's revert semantics: every entry point is a function
  `... → ContractState → Except Err ContractState`; intermediate storage
  writes are threaded through the computation, and the outer transition
  `step` discards them when the call ends in an error, exactly as the EVM
  rolls back all storage writes of a reverted call.
* Events are ignored (no state), `msg.sender` / `block.timestamp` are
  explicit arguments, and the external capabilities `FHE.requestDecryption`
  (fresh id counter) and `FHE.checkSignatures` (an arbitrary boolean
  predicate `sigOk`, supplied as a parameter) follow the spec's opaque
  capability surface.
* The struct field `totalEncryptedResponses` is declared `uint256` in the
  Solidity struct but every use site (`FHE.asEuint32`, `.add`,
  `.toBytes32`) treats it as an `euint32` ciphertext; it is modelled as a
  ciphertext, matching all uses.
-/

/-- An euint32 ciphertext: FHEVM handle plus ghost plaintext value.
Handle `0` is the uninitialized ciphertext (`FHE.isInitialized` is
`handle ≠ 0`); `val` is the plaintext the handle decrypts to, kept
reduced modulo `2^32` by every constructor the contract uses. -/
structure Ciph where
  handle : Nat
  val : Nat
  deriving Repr, DecidableEq, Inhabited

/-- `FHE.asEuint32 n`: a fresh trivial ciphertext of `n % 2^32`; takes and
returns the fresh-handle counter. -/
def fheAsEuint32 (n : Nat) (h : Nat) : Ciph × Nat :=
  ({ handle := h, val := n % 2^32 }, h + 1)

/-- `FHE.add` on euint32: wrapping addition modulo `2^32`, fresh handle. -/
def fheAdd (a b : Ciph) (h : Nat) : Ciph × Nat :=
  ({ handle := h, val := (a.val + b.val) % 2^32 }, h + 1)

/-- `FHE.isInitialized` for euint32: the handle is nonzero. -/
def fheIsInitialized (c : Ciph) : Bool :=
  c.handle != 0

/-- `bytes32` words as stored in `DecryptionContext.stateHash`: either a raw
word (`word 0` is the zero default of an unwritten storage slot) or the
keccak digest `keccakEnc cts addr` of `abi.encode(cts, addr)` produced by
`_hashCiphertexts`; keccak is idealized as collision-free. -/
inductive B32 where
  | word (n : Nat)
  | keccakEnc (cts : List Nat) (addr : Nat)
  deriving Repr, DecidableEq

instance : Inhabited B32 := ⟨B32.word 0⟩

/-- `_hashCiphertexts(cts) = keccak256(abi.encode(cts, address(this)))`. -/
def hashCiphertexts (cts : List Nat) (addr : Nat) : B32 :=
  B32.keccakEnc cts addr

/-- The contract's custom errors (plus `AbiDecodeFailed` for the generic
revert of a failed `abi.decode` in the callback). -/
inductive Err where
  | NotOwner
  | NotProvider
  | Paused
  | CooldownActive
  | BatchClosed
  | BatchNotClosed
  | InvalidParameter
  | ReplayDetected
  | StateMismatch
  | DecryptionFailed
  | NotInitialized
  | AbiDecodeFailed
  deriving Repr, DecidableEq

/-- `struct Batch`. -/
structure Batch where
  id : Nat
  open_ : Bool
  totalEncryptedResponses : Ciph
  encryptedTotalResponseSum : Ciph
  deriving Repr, DecidableEq

instance : Inhabited Batch :=
  ⟨{ id := 0, open_ := false, totalEncryptedResponses := default,
     encryptedTotalResponseSum := default }⟩

/-- `struct DecryptionContext`. -/
structure DecryptionContext where
  batchId : Nat
  stateHash : B32
  processed : Bool
  deriving Repr, DecidableEq

instance : Inhabited DecryptionContext :=
  ⟨{ batchId := 0, stateHash := B32.word 0, processed := false }⟩

/-- The contract's storage, plus the two external counters of the FHE
capability (fresh ciphertext handles and fresh decryption request ids) and
the contract's own address `thisAddr` (used by `_hashCiphertexts`). -/
structure ContractState where
  owner : Nat
  isProvider : Nat → Bool
  paused : Bool
  cooldownSeconds : Nat
  lastSubmissionTime : Nat → Nat
  lastDecryptionRequestTime : Nat → Nat
  currentBatchId : Nat
  batches : Nat → Batch
  decryptionContexts : Nat → DecryptionContext
  thisAddr : Nat
  nextHandle : Nat
  nextRequestId : Nat

/-- Pointwise map update, the meaning of `m[k] = v` on a storage mapping. -/
def upd {α : Type} (f : Nat → α) (k : Nat) (v : α) : Nat → α :=
  fun x => if x = k then v else f x

/-- The state right after the constructor ran (`owner = msg.sender`,
every mapping at its zero default); handle and request counters of the
external FHE capability start at 1 so that handle 0 stays "uninitialized". -/
def initialState (deployer addr : Nat) : ContractState :=
  { owner := deployer
    isProvider := fun _ => false
    paused := false
    cooldownSeconds := 0
    lastSubmissionTime := fun _ => 0
    lastDecryptionRequestTime := fun _ => 0
    currentBatchId := 0
    batches := fun _ => default
    decryptionContexts := fun _ => default
    thisAddr := addr
    nextHandle := 1
    nextRequestId := 1 }

/-- `modifier respectCooldown(caller, lastCallTime)` at one mapping slot:
reverts `CooldownActive` if `now < lastUse + cooldownSeconds`, else
returns the new last-use time (`block.timestamp`) to be stored. -/
def respectCooldown (lastUse cooldownSeconds now : Nat) : Except Err Nat :=
  if now < lastUse + cooldownSeconds then .error .CooldownActive
  else .ok now

/-- `transferOwnership(newOwner)`. -/
def transferOwnership (sender newOwner : Nat) (s : ContractState) :
    Except Err ContractState :=
  if sender ≠ s.owner then .error .NotOwner
  else .ok { s with owner := newOwner }

/-- `addProvider(provider)`. -/
def addProvider (sender provider : Nat) (s : ContractState) :
    Except Err ContractState :=
  if sender ≠ s.owner then .error .NotOwner
  else .ok { s with isProvider := upd s.isProvider provider true }

/-- `removeProvider(provider)`. -/
def removeProvider (sender provider : Nat) (s : ContractState) :
    Except Err ContractState :=
  if sender ≠ s.owner then .error .NotOwner
  else .ok { s with isProvider := upd s.isProvider provider false }

/-- `setPaused(_paused)`. -/
def setPaused (sender : Nat) (p : Bool) (s : ContractState) :
    Except Err ContractState :=
  if sender ≠ s.owner then .error .NotOwner
  else if s.paused = p then .error .InvalidParameter
  else .ok { s with paused := p }

/-- `setCooldownSeconds(newCooldownSeconds)`. -/
def setCooldownSeconds (sender n : Nat) (s : ContractState) :
    Except Err ContractState :=
  if sender ≠ s.owner then .error .NotOwner
  else if n = s.cooldownSeconds then .error .InvalidParameter
  else .ok { s with cooldownSeconds := n }

/-- `openBatch()`: increments `currentBatchId` and (re)writes every field of
`batches[currentBatchId]` with fresh zero ciphertexts. -/
def openBatch (sender : Nat) (s : ContractState) : Except Err ContractState :=
  if sender ≠ s.owner then .error .NotOwner
  else if s.paused then .error .Paused
  else
    let newId := s.currentBatchId + 1
    let (z1, h1) := fheAsEuint32 0 s.nextHandle
    let (z2, h2) := fheAsEuint32 0 h1
    .ok { s with
          currentBatchId := newId
          nextHandle := h2
          batches := upd s.batches newId
            { id := newId, open_ := true, totalEncryptedResponses := z1,
              encryptedTotalResponseSum := z2 } }

/-- `closeBatch(batchId)`. -/
def closeBatch (sender batchId : Nat) (s : ContractState) :
    Except Err ContractState :=
  if sender ≠ s.owner then .error .NotOwner
  else if s.paused then .error .Paused
  else if batchId ≠ s.currentBatchId then .error .InvalidParameter
  else
    let batch := s.batches batchId
    if batch.open_ = false then .error .BatchClosed
    else .ok { s with batches := upd s.batches batchId { batch with open_ := false } }

/-- The loop of `submitEncryptedResponses`: for each element,
`_requireInitialized` then homomorphic add into the running sum; threads
the fresh-handle counter.  An uninitialized element aborts with
`NotInitialized` after earlier elements were already accumulated. -/
def accumLoop (acc : Ciph) (h : Nat) : List Ciph → Except Err (Ciph × Nat)
  | [] => .ok (acc, h)
  | r :: rest =>
    if fheIsInitialized r = false then .error .NotInitialized
    else
      let (acc', h') := fheAdd acc r h
      accumLoop acc' h' rest

/-- `submitEncryptedResponses(batchId, encryptedResponses)`:
`onlyProvider`, `whenNotPaused`, `respectCooldown(msg.sender,
lastSubmissionTime)`, then the accumulation loop and the count update. -/
def submitEncryptedResponses (sender now batchId : Nat) (rs : List Ciph)
    (s : ContractState) : Except Err ContractState :=
  if s.isProvider sender = false then .error .NotProvider
  else if s.paused then .error .Paused
  else if now < s.lastSubmissionTime sender + s.cooldownSeconds then
    .error .CooldownActive
  else
    let s1 := { s with lastSubmissionTime := upd s.lastSubmissionTime sender now }
    let batch := s1.batches batchId
    if batch.open_ = false then .error .BatchClosed
    else
      match accumLoop batch.encryptedTotalResponseSum s1.nextHandle rs with
      | .error e => .error e
      | .ok (sumCt, h1) =>
        let (lenCt, h2) := fheAsEuint32 rs.length h1
        let (cntCt, h3) := fheAdd batch.totalEncryptedResponses lenCt h2
        .ok { s1 with
              nextHandle := h3
              batches := upd s1.batches batchId
                { batch with totalEncryptedResponses := cntCt,
                             encryptedTotalResponseSum := sumCt } }

/-- `requestBatchSummaryDecryption(batchId)`: `onlyOwner`, `whenNotPaused`,
`respectCooldown(msg.sender, lastDecryptionRequestTime)`; requires the
batch closed, fingerprints the two current ciphertext handles together
with the contract address, allocates a request id and stores a fresh
`DecryptionContext`. -/
def requestBatchSummaryDecryption (sender now batchId : Nat)
    (s : ContractState) : Except Err ContractState :=
  if sender ≠ s.owner then .error .NotOwner
  else if s.paused then .error .Paused
  else if now < s.lastDecryptionRequestTime sender + s.cooldownSeconds then
    .error .CooldownActive
  else
    let s1 := { s with
                lastDecryptionRequestTime := upd s.lastDecryptionRequestTime sender now }
    let batch := s1.batches batchId
    if batch.open_ = true then .error .BatchNotClosed
    else
      let cts := [batch.totalEncryptedResponses.handle,
                  batch.encryptedTotalResponseSum.handle]
      let stateHash := hashCiphertexts cts s1.thisAddr
      let requestId := s1.nextRequestId
      .ok { s1 with
            nextRequestId := requestId + 1
            decryptionContexts := upd s1.decryptionContexts requestId
              { batchId := batchId, stateHash := stateHash, processed := false } }

/-- The fingerprint `myCallback` recomputes: `_hashCiphertexts` over the
current two ciphertext handles of the batch named by the request's stored
`DecryptionContext`. -/
def recomputedHash (s : ContractState) (requestId : Nat) : B32 :=
  let ctx := s.decryptionContexts requestId
  let batch := s.batches ctx.batchId
  hashCiphertexts [batch.totalEncryptedResponses.handle,
                   batch.encryptedTotalResponseSum.handle] s.thisAddr

/-- `myCallback(requestId, cleartexts, proof)`: replay check, freshness
check, `FHE.checkSignatures` (the external verifier `sigOk`, reverting
when it rejects), `abi.decode(cleartexts, (bytes32, bytes32))`, then
`processed = true`.  Note: no `whenNotPaused` modifier in the source. -/
def myCallback (sigOk : Nat → List Nat → Nat → Bool)
    (requestId : Nat) (cleartexts : List Nat) (proof : Nat)
    (s : ContractState) : Except Err ContractState :=
  if (s.decryptionContexts requestId).processed = true then .error .ReplayDetected
  else
    let ctx := s.decryptionContexts requestId
    if recomputedHash s requestId ≠ ctx.stateHash then .error .StateMismatch
    else if sigOk requestId cleartexts proof = false then .error .DecryptionFailed
    else
      match cleartexts with
      | [_, _] =>
        .ok { s with decryptionContexts :=
                (upd s.decryptionContexts requestId { ctx with processed := true }) }
      | _ => .error .AbiDecodeFailed

/-- One external call into the contract, with `msg.sender` and (where the
cooldown modifier reads it) `block.timestamp` made explicit. -/
inductive Call where
  | transferOwnership (sender newOwner : Nat)
  | addProvider (sender provider : Nat)
  | removeProvider (sender provider : Nat)
  | setPaused (sender : Nat) (p : Bool)
  | setCooldownSeconds (sender n : Nat)
  | openBatch (sender : Nat)
  | closeBatch (sender batchId : Nat)
  | submitEncryptedResponses (sender now batchId : Nat) (rs : List Ciph)
  | requestBatchSummaryDecryption (sender now batchId : Nat)
  | myCallback (requestId : Nat) (cleartexts : List Nat) (proof : Nat)

/-- Execute one call: the contract's code, ending in `.ok` (the new
storage) or `.error` (a revert). -/
def exec (sigOk : Nat → List Nat → Nat → Bool) (s : ContractState) :
    Call → Except Err ContractState
  | .transferOwnership sender newOwner => transferOwnership sender newOwner s
  | .addProvider sender provider => addProvider sender provider s
  | .removeProvider sender provider => removeProvider sender provider s
  | .setPaused sender p => setPaused sender p s
  | .setCooldownSeconds sender n => setCooldownSeconds sender n s
  | .openBatch sender => openBatch sender s
  | .closeBatch sender batchId => closeBatch sender batchId s
  | .submitEncryptedResponses sender now batchId rs =>
      submitEncryptedResponses sender now batchId rs s
  | .requestBatchSummaryDecryption sender now batchId =>
      requestBatchSummaryDecryption sender now batchId s
  | .myCallback requestId cleartexts proof =>
      myCallback sigOk requestId cleartexts proof s

/-- The observable state transition of one call: the EVM commits the new
storage on success and rolls every write back on revert. -/
def step (sigOk : Nat → List Nat → Nat → Bool) (s : ContractState)
    (c : Call) : ContractState :=
  match exec sigOk s c with
  | .ok s' => s'
  | .error _ => s

/-- Run a sequence of external calls. -/
def run (sigOk : Nat → List Nat → Nat → Bool) (s : ContractState) :
    List Call → ContractState
  | [] => s
  | c :: cs => run sigOk (step sigOk s c) cs

/-- A proof verifier that accepts everything (one admissible behaviour of
the external `FHE.checkSignatures` capability). -/
def sigOkTrue : Nat → List Nat → Nat → Bool := fun _ _ _ => true

/-- Is the call outcome exactly the given revert error? -/
def errWith (r : Except Err ContractState) (e : Err) : Bool :=
  match r with
  | .error e2 => e2 == e
  | .ok _ => false

/-- Did the call succeed? -/
def isOkCall (r : Except Err ContractState) : Bool :=
  match r with
  | .ok _ => true
  | .error _ => false

/-- A state whose context table marks every request as already processed. -/
def replayState : ContractState :=
  { initialState 7 99 with
    decryptionContexts := fun _ =>
      { batchId := 0, stateHash := B32.word 0, processed := true } }

/-- A reachable state in which request 1 was accepted for (then nonexistent)
batch 1, after which openBatch created batch 1 with fresh ciphertext
handles, so the stored fingerprint of request 1 is now stale. -/
def c2State : ContractState :=
  run sigOkTrue (initialState 7 99)
    [.requestBatchSummaryDecryption 7 0 1, .myCallback 1 [5, 7] 0, .openBatch 7]

/-- A reachable paused state with a pending decryption request for closed
batch 1: openBatch, closeBatch, requestBatchSummaryDecryption, setPaused. -/
def c3State : ContractState :=
  run sigOkTrue (initialState 7 99)
    [.openBatch 7, .closeBatch 7 1, .requestBatchSummaryDecryption 7 0 1,
     .setPaused 7 true]

/-- A reachable state with provider 3 and open batch 1. -/
def c4State : ContractState :=
  run sigOkTrue (initialState 7 99) [.addProvider 7 3, .openBatch 7]

/-- A reachable state with provider 4 and open batch 1. -/
def c5State : ContractState :=
  run sigOkTrue (initialState 7 99) [.addProvider 7 4, .openBatch 7]

/-- A sequence of submitEncryptedResponses calls on one batch id, each
given as (sender, block.timestamp, responses); stops at the first revert. -/
def submitMany (batchId : Nat) (s : ContractState) :
    List (Nat × Nat × List Ciph) → Except Err ContractState
  | [] => .ok s
  | g :: gs =>
    match submitEncryptedResponses g.1 g.2.1 batchId g.2.2 s with
    | .error e => .error e
    | .ok s2 => submitMany batchId s2 gs

/-- Arithmetic (unbounded) sum of all plaintext values submitted across a
sequence of calls. -/
def plainSum (groups : List (Nat × Nat × List Ciph)) : Nat :=
  (groups.map (fun g => (g.2.2.map Ciph.val).sum)).sum

/-- Total number of values submitted across a sequence of calls. -/
def plainCount (groups : List (Nat × Nat × List Ciph)) : Nat :=
  (groups.map (fun g => g.2.2.length)).sum

/-- The two overflow submissions of 2^31 each. -/
def c5OverflowGroups : List (Nat × Nat × List Ciph) :=
  [(4, 0, [{ handle := 41, val := 2^31 }]), (4, 1, [{ handle := 42, val := 2^31 }])]

/-- The overflow run: two submissions of 2^31 to open batch 1. -/
def c5Overflow : Except Err ContractState :=
  submitMany 1 c5State c5OverflowGroups

/-- The decrypted value of batch 1's final encrypted sum after the
overflow run (none if some call reverted). -/
def c5DecryptedSum : Option Nat :=
  match c5Overflow with
  | .ok s2 => some ((s2.batches 1).encryptedTotalResponseSum.val)
  | .error _ => none

/-- Never-touched batch slots hold the default record: batch 0 is never
written (ids start at 1), and neither is any id above currentBatchId. -/
def BatchesInv (s : ContractState) : Prop :=
  s.batches 0 = default ∧ ∀ b, s.currentBatchId < b → s.batches b = default

/-- A reachable state whose batch 1 was opened and then closed. -/
def c6State : ContractState :=
  run sigOkTrue (initialState 7 99) [.addProvider 7 3, .openBatch 7, .closeBatch 7 1]

/-- Regrouping witness data: one call with two values. -/
def c5GroupsA : List (Nat × Nat × List Ciph) :=
  [(4, 0, [{ handle := 31, val := 5 }, { handle := 32, val := 7 }])]

/-- Regrouping witness data: two calls with one value each. -/
def c5GroupsB : List (Nat × Nat × List Ciph) :=
  [(4, 0, [{ handle := 33, val := 5 }]), (4, 0, [{ handle := 34, val := 7 }])]

/-- The state after running c5GroupsA from c5State. -/
def c5AfterA : ContractState :=
  match submitMany 1 c5State c5GroupsA with
  | .ok s2 => s2
  | .error _ => c5State

/-- The state after running c5GroupsB from c5State. -/
def c5AfterB : ContractState :=
  match submitMany 1 c5State c5GroupsB with
  | .ok s2 => s2
  | .error _ => c5State

theorem exec_transferOwnership (sigOk : Nat → List Nat → Nat → Bool)
    (s : ContractState) (sender newOwner : Nat) :
    exec sigOk s (.transferOwnership sender newOwner) =
      transferOwnership sender newOwner s := rfl

theorem exec_addProvider (sigOk : Nat → List Nat → Nat → Bool)
    (s : ContractState) (sender provider : Nat) :
    exec sigOk s (.addProvider sender provider) = addProvider sender provider s := rfl

theorem exec_removeProvider (sigOk : Nat → List Nat → Nat → Bool)
    (s : ContractState) (sender provider : Nat) :
    exec sigOk s (.removeProvider sender provider) =
      removeProvider sender provider s := rfl

theorem exec_setPaused (sigOk : Nat → List Nat → Nat → Bool)
    (s : ContractState) (sender : Nat) (p : Bool) :
    exec sigOk s (.setPaused sender p) = setPaused sender p s := rfl

theorem exec_setCooldownSeconds (sigOk : Nat → List Nat → Nat → Bool)
    (s : ContractState) (sender n : Nat) :
    exec sigOk s (.setCooldownSeconds sender n) = setCooldownSeconds sender n s := rfl

theorem exec_openBatch (sigOk : Nat → List Nat → Nat → Bool)
    (s : ContractState) (sender : Nat) :
    exec sigOk s (.openBatch sender) = openBatch sender s := rfl

theorem exec_closeBatch (sigOk : Nat → List Nat → Nat → Bool)
    (s : ContractState) (sender batchId : Nat) :
    exec sigOk s (.closeBatch sender batchId) = closeBatch sender batchId s := rfl

theorem exec_submit (sigOk : Nat → List Nat → Nat → Bool)
    (s : ContractState) (sender now batchId : Nat) (rs : List Ciph) :
    exec sigOk s (.submitEncryptedResponses sender now batchId rs) =
      submitEncryptedResponses sender now batchId rs s := rfl

theorem exec_request (sigOk : Nat → List Nat → Nat → Bool)
    (s : ContractState) (sender now batchId : Nat) :
    exec sigOk s (.requestBatchSummaryDecryption sender now batchId) =
      requestBatchSummaryDecryption sender now batchId s := rfl

theorem exec_myCallback (sigOk : Nat → List Nat → Nat → Bool)
    (s : ContractState) (requestId : Nat) (cleartexts : List Nat) (pf : Nat) :
    exec sigOk s (.myCallback requestId cleartexts pf) =
      myCallback sigOk requestId cleartexts pf s := rfl

/-- C1: once a requestId's callback has been accepted (its
DecryptionContext has processed == true), every further invocation of the
decryption callback with that requestId reverts with ReplayDetected and
leaves the whole stored state unchanged, for every choice of cleartexts,
proof and proof-verifier behaviour. -/
theorem callback_replay_rejected (sigOk : Nat → List Nat → Nat → Bool)
    (s : ContractState) (requestId : Nat) (cleartexts : List Nat) (pf : Nat)
    (h : (s.decryptionContexts requestId).processed = true) :
    exec sigOk s (.myCallback requestId cleartexts pf) = .error .ReplayDetected ∧
    step sigOk s (.myCallback requestId cleartexts pf) = s := by
  refine ⟨?_, ?_⟩ <;> simp [exec, step, myCallback, h]

theorem callback_replay_rejected_witness :
    exec sigOkTrue replayState (.myCallback 1 [5, 7] 0) = .error .ReplayDetected ∧
    step sigOkTrue replayState (.myCallback 1 [5, 7] 0) = replayState :=
  callback_replay_rejected sigOkTrue replayState 1 [5, 7] 0 rfl

/-- C2 (amended): a decryption callback whose replay check passes
(processed still false) but whose fingerprint, recomputed over the
referenced batch's current two ciphertext handles and the contract's own
address, differs from the stored stateFingerprint reverts with
StateMismatch and leaves the whole stored state (in particular processed)
unchanged. -/
theorem callback_state_mismatch (sigOk : Nat → List Nat → Nat → Bool)
    (s : ContractState) (requestId : Nat) (cleartexts : List Nat) (pf : Nat)
    (hp : (s.decryptionContexts requestId).processed = false)
    (hm : recomputedHash s requestId ≠ (s.decryptionContexts requestId).stateHash) :
    exec sigOk s (.myCallback requestId cleartexts pf) = .error .StateMismatch ∧
    step sigOk s (.myCallback requestId cleartexts pf) = s := by
  refine ⟨?_, ?_⟩ <;> simp [exec, step, myCallback, hp, hm]

theorem callback_state_mismatch_witness :
    exec sigOkTrue (initialState 7 99) (.myCallback 1 [5, 7] 0) = .error .StateMismatch ∧
    step sigOkTrue (initialState 7 99) (.myCallback 1 [5, 7] 0) = initialState 7 99 :=
  callback_state_mismatch sigOkTrue (initialState 7 99) 1 [5, 7] 0 rfl (by decide)

/-- C2 counterexample: at c2State the fingerprint recomputed over batch 1's
current handles differs from the stored stateFingerprint of request 1, yet
the callback reverts with ReplayDetected, not StateMismatch, because the
replay check runs first. -/
theorem callback_state_mismatch_cex :
    recomputedHash c2State 1 ≠ (c2State.decryptionContexts 1).stateHash ∧
    errWith (exec sigOkTrue c2State (.myCallback 1 [5, 7] 0)) .ReplayDetected = true ∧
    errWith (exec sigOkTrue c2State (.myCallback 1 [5, 7] 0)) .StateMismatch = false := by
  refine ⟨by decide, rfl, rfl⟩

/-- C7: closeBatch, called by the administrator while not paused, reverts
with InvalidParameter when batchId differs from currentBatchId, reverts
with BatchClosed when that batch is already closed, and otherwise only
flips the batch's open field to false, leaving every other field of the
batch and of the contract state unchanged. -/
theorem closeBatch_spec (s : ContractState) (sender batchId : Nat)
    (ho : sender = s.owner) (hp : s.paused = false) :
    (batchId ≠ s.currentBatchId →
      closeBatch sender batchId s = .error .InvalidParameter) ∧
    (batchId = s.currentBatchId → (s.batches batchId).open_ = false →
      closeBatch sender batchId s = .error .BatchClosed) ∧
    (batchId = s.currentBatchId → (s.batches batchId).open_ = true →
      closeBatch sender batchId s =
        .ok { s with batches :=
                (upd s.batches batchId { s.batches batchId with open_ := false }) }) := by
  refine ⟨fun hne => ?_, fun he hcl => ?_, fun he hop => ?_⟩
  · simp [closeBatch, ho, hp, hne]
  · subst he
    simp [closeBatch, ho, hp, hcl]
  · subst he
    simp [closeBatch, ho, hp, hop]

theorem closeBatch_spec_witness :
    closeBatch 7 1 (initialState 7 99) = .error .InvalidParameter :=
  (closeBatch_spec (initialState 7 99) 7 1 rfl rfl).1 (by decide)

theorem accumLoop_only_notInitialized (rs : List Ciph) (acc : Ciph) (h : Nat) (e : Err)
    (hE : accumLoop acc h rs = .error e) : e = .NotInitialized := by
  induction rs generalizing acc h with
  | nil => simp [accumLoop] at hE
  | cons r rest ih =>
    unfold accumLoop at hE
    split at hE
    · injection hE with hE
      exact hE.symm
    · exact ih _ _ hE

/-- C8: the cooldown modifier reverts with CooldownActive exactly when now
is strictly below the recorded last use plus cooldownSeconds, and otherwise
passes, returning now as the new last-use time; moreover the two action
kinds use disjoint tables: a successful submitEncryptedResponses writes
only the caller's lastSubmissionTime slot (to now) and leaves
lastDecryptionRequestTime untouched, while a successful
requestBatchSummaryDecryption writes only the caller's
lastDecryptionRequestTime slot (to now) and leaves lastSubmissionTime
untouched. -/
theorem cooldown_spec :
    (∀ lastUse cd now, (respectCooldown lastUse cd now = .error .CooldownActive ↔
        now < lastUse + cd)) ∧
    (∀ lastUse cd now, lastUse + cd ≤ now →
        respectCooldown lastUse cd now = .ok now) ∧
    (∀ sigOk s sender now batchId rs s2,
       exec sigOk s (.submitEncryptedResponses sender now batchId rs) = .ok s2 →
       s2.lastDecryptionRequestTime = s.lastDecryptionRequestTime ∧
       s2.lastSubmissionTime sender = now ∧
       ∀ a, a ≠ sender → s2.lastSubmissionTime a = s.lastSubmissionTime a) ∧
    (∀ sigOk s sender now batchId s2,
       exec sigOk s (.requestBatchSummaryDecryption sender now batchId) = .ok s2 →
       s2.lastSubmissionTime = s.lastSubmissionTime ∧
       s2.lastDecryptionRequestTime sender = now ∧
       ∀ a, a ≠ sender → s2.lastDecryptionRequestTime a = s.lastDecryptionRequestTime a) ∧
    (∀ sigOk s sender now batchId rs,
       s.isProvider sender = true → s.paused = false →
       (exec sigOk s (.submitEncryptedResponses sender now batchId rs) =
           .error .CooldownActive ↔
         now < s.lastSubmissionTime sender + s.cooldownSeconds)) ∧
    (∀ sigOk s sender now batchId,
       sender = s.owner → s.paused = false →
       (exec sigOk s (.requestBatchSummaryDecryption sender now batchId) =
           .error .CooldownActive ↔
         now < s.lastDecryptionRequestTime sender + s.cooldownSeconds)) := by
  refine ⟨?_, ?_, ?_, ?_, ?_, ?_⟩
  · intro lastUse cd now
    unfold respectCooldown
    split
    · simp [*]
    · simp
      omega
  · intro lastUse cd now h
    unfold respectCooldown
    split
    · omega
    · rfl
  · intro sigOk s sender now batchId rs s2 hE
    rw [exec_submit] at hE
    unfold submitEncryptedResponses at hE
    split at hE
    · exact absurd hE (by simp)
    split at hE
    · exact absurd hE (by simp)
    split at hE
    · exact absurd hE (by simp)
    dsimp only at hE
    split at hE
    · exact absurd hE (by simp)
    split at hE
    · exact absurd hE (by simp)
    · injection hE with hE
      subst hE
      refine ⟨rfl, by simp [upd], fun a ha => by simp [upd, ha]⟩
  · intro sigOk s sender now batchId s2 hE
    rw [exec_request] at hE
    unfold requestBatchSummaryDecryption at hE
    split at hE
    · exact absurd hE (by simp)
    split at hE
    · exact absurd hE (by simp)
    split at hE
    · exact absurd hE (by simp)
    dsimp only at hE
    split at hE
    · exact absurd hE (by simp)
    · injection hE with hE
      subst hE
      refine ⟨rfl, by simp [upd], fun a ha => by simp [upd, ha]⟩
  · intro sigOk s sender now batchId rs hprov hpause
    rw [exec_submit]
    unfold submitEncryptedResponses
    simp only [hprov, hpause, Bool.true_eq_false, if_false, Bool.false_eq_true]
    by_cases hcd : now < s.lastSubmissionTime sender + s.cooldownSeconds
    · simp [hcd]
    · simp only [hcd, if_false, iff_false]
      intro hbad
      split at hbad
      · exact absurd hbad (by simp)
      split at hbad
      · rename_i e heq
        injection hbad with hbad
        have hni := accumLoop_only_notInitialized _ _ _ _ heq
        rw [hni] at hbad
        exact absurd hbad (by simp)
      · exact absurd hbad (by simp)
  · intro sigOk s sender now batchId ho hpause
    rw [exec_request]
    unfold requestBatchSummaryDecryption
    subst ho
    simp only [hpause, ne_eq, not_true_eq_false, if_false, Bool.false_eq_true]
    by_cases hcd : now < s.lastDecryptionRequestTime s.owner + s.cooldownSeconds
    · simp [hcd]
    · simp only [hcd, if_false, iff_false]
      intro hbad
      split at hbad
      · exact absurd hbad (by simp)
      · exact absurd hbad (by simp)

theorem cooldown_spec_witness :
    respectCooldown 0 5 3 = .error .CooldownActive ∧
    respectCooldown 0 5 5 = .ok 5 :=
  ⟨(cooldown_spec.1 0 5 3).2 (by decide), cooldown_spec.2.1 0 5 5 (by decide)⟩

/-- C10: a requestId for which no decryption request was ever issued reads
the default DecryptionContext (processed false, batchId 0, zero
stateFingerprint), so the replay check passes and the callback reaches the
freshness comparison of that zero fingerprint against the hash recomputed
over batch 0's ciphertext handles; under the collision-free keccak model
that comparison fails, so the call reverts with StateMismatch and in
particular is never rejected as a replay. -/
theorem callback_unknown_request (sigOk : Nat → List Nat → Nat → Bool)
    (s : ContractState) (requestId : Nat) (cleartexts : List Nat) (pf : Nat)
    (h : s.decryptionContexts requestId = default) :
    (default : DecryptionContext) =
      { batchId := 0, stateHash := B32.word 0, processed := false } ∧
    recomputedHash s requestId =
      hashCiphertexts [(s.batches 0).totalEncryptedResponses.handle,
                       (s.batches 0).encryptedTotalResponseSum.handle] s.thisAddr ∧
    exec sigOk s (.myCallback requestId cleartexts pf) ≠ .error .ReplayDetected ∧
    exec sigOk s (.myCallback requestId cleartexts pf) = .error .StateMismatch := by
  have hp : (s.decryptionContexts requestId).processed = false := by
    rw [h]
    rfl
  have hb : (s.decryptionContexts requestId).batchId = 0 := by
    rw [h]
    rfl
  have hm : recomputedHash s requestId ≠ (s.decryptionContexts requestId).stateHash := by
    rw [h]
    simp [recomputedHash, hashCiphertexts, h]
  refine ⟨rfl, ?_, ?_, ?_⟩
  · simp only [recomputedHash, hb]
  · rw [exec_myCallback]
    unfold myCallback
    simp [hp, hm]
  · rw [exec_myCallback]
    unfold myCallback
    simp [hp, hm]

theorem callback_unknown_request_witness :
    exec sigOkTrue (initialState 11 42) (.myCallback 3 [1, 2] 0) ≠ .error .ReplayDetected ∧
    exec sigOkTrue (initialState 11 42) (.myCallback 3 [1, 2] 0) = .error .StateMismatch :=
  ⟨(callback_unknown_request sigOkTrue (initialState 11 42) 3 [1, 2] 0 rfl).2.2.1,
   (callback_unknown_request sigOkTrue (initialState 11 42) 3 [1, 2] 0 rfl).2.2.2⟩

/-- C3 (amended): while paused, the four gated entry points openBatch,
closeBatch, submitEncryptedResponses and requestBatchSummaryDecryption all
revert — with the Paused error whenever the caller passes the role check
that precedes the pause check — and mutate nothing; the decryption
callback, however, carries no whenNotPaused modifier, so it is not in this
list (see the counterexample theorem for a paused state in which it
succeeds and sets processed = true). -/
theorem paused_blocks_entry_points (sigOk : Nat → List Nat → Nat → Bool)
    (s : ContractState) (hp : s.paused = true) :
    (∀ sender, sender = s.owner →
      exec sigOk s (.openBatch sender) = .error .Paused) ∧
    (∀ sender batchId, sender = s.owner →
      exec sigOk s (.closeBatch sender batchId) = .error .Paused) ∧
    (∀ sender now batchId rs, s.isProvider sender = true →
      exec sigOk s (.submitEncryptedResponses sender now batchId rs) = .error .Paused) ∧
    (∀ sender now batchId, sender = s.owner →
      exec sigOk s (.requestBatchSummaryDecryption sender now batchId) = .error .Paused) ∧
    (∀ sender, step sigOk s (.openBatch sender) = s) ∧
    (∀ sender batchId, step sigOk s (.closeBatch sender batchId) = s) ∧
    (∀ sender now batchId rs,
      step sigOk s (.submitEncryptedResponses sender now batchId rs) = s) ∧
    (∀ sender now batchId,
      step sigOk s (.requestBatchSummaryDecryption sender now batchId) = s) := by
  refine ⟨?_, ?_, ?_, ?_, ?_, ?_, ?_, ?_⟩
  · intro sender ho
    rw [exec_openBatch]
    simp [openBatch, ho, hp]
  · intro sender batchId ho
    rw [exec_closeBatch]
    simp [closeBatch, ho, hp]
  · intro sender now batchId rs hprov
    rw [exec_submit]
    simp [submitEncryptedResponses, hprov, hp]
  · intro sender now batchId ho
    rw [exec_request]
    simp [requestBatchSummaryDecryption, ho, hp]
  · intro sender
    unfold step
    rw [exec_openBatch]
    unfold openBatch
    by_cases ho : sender = s.owner <;> simp [ho, hp]
  · intro sender batchId
    unfold step
    rw [exec_closeBatch]
    unfold closeBatch
    by_cases ho : sender = s.owner <;> simp [ho, hp]
  · intro sender now batchId rs
    unfold step
    rw [exec_submit]
    unfold submitEncryptedResponses
    by_cases hprov : s.isProvider sender = false <;> simp [hprov, hp]
  · intro sender now batchId
    unfold step
    rw [exec_request]
    unfold requestBatchSummaryDecryption
    by_cases ho : sender = s.owner <;> simp [ho, hp]

theorem paused_blocks_entry_points_witness :
    exec sigOkTrue c3State (.openBatch 7) = .error .Paused ∧
    step sigOkTrue c3State (.openBatch 7) = c3State :=
  ⟨(paused_blocks_entry_points sigOkTrue c3State rfl).1 7 rfl,
   (paused_blocks_entry_points sigOkTrue c3State rfl).2.2.2.2.1 7⟩

/-- C3 counterexample: c3State is paused, yet the decryption callback does
not revert with Paused — it succeeds and sets processed = true, mutating
state while the pause flag is up. -/
theorem paused_callback_not_blocked_cex :
    c3State.paused = true ∧
    errWith (exec sigOkTrue c3State (.myCallback 1 [3, 15] 0)) .Paused = false ∧
    isOkCall (exec sigOkTrue c3State (.myCallback 1 [3, 15] 0)) = true ∧
    ((step sigOkTrue c3State (.myCallback 1 [3, 15] 0)).decryptionContexts 1).processed
      = true := by
  exact ⟨rfl, rfl, rfl, rfl⟩

/-- C4: every entry point is atomic under the EVM's revert semantics: a
call that terminates with any error leaves the observable stored state
(batches, decryption contexts, roles, pause flag, cooldown tables) exactly
as before the call, because step commits storage only on success; in
particular a submitEncryptedResponses call whose NotInitialized check
fires on the second array element — after the first element was already
accumulated into the threaded intermediate state — reverts with
NotInitialized and commits nothing. -/
theorem revert_atomicity (sigOk : Nat → List Nat → Nat → Bool)
    (s : ContractState) (c : Call) (e : Err)
    (h : exec sigOk s c = .error e) :
    step sigOk s c = s ∧
    (∀ sender now batchId v w hdl,
       s.isProvider sender = true → s.paused = false →
       s.lastSubmissionTime sender + s.cooldownSeconds ≤ now →
       (s.batches batchId).open_ = true → hdl ≠ 0 →
       exec sigOk s (.submitEncryptedResponses sender now batchId
         [{ handle := hdl, val := v }, { handle := 0, val := w }]) =
         .error .NotInitialized ∧
       step sigOk s (.submitEncryptedResponses sender now batchId
         [{ handle := hdl, val := v }, { handle := 0, val := w }]) = s) := by
  constructor
  · unfold step
    rw [h]
  · intro sender now batchId v w hdl hprov hpause hcd hopen hh
    have hx : exec sigOk s (.submitEncryptedResponses sender now batchId
        [{ handle := hdl, val := v }, { handle := 0, val := w }]) =
        .error .NotInitialized := by
      rw [exec_submit]
      unfold submitEncryptedResponses
      simp [hprov, hpause, Nat.not_lt.mpr hcd, hopen, accumLoop, fheIsInitialized, hh]
    refine ⟨hx, ?_⟩
    unfold step
    rw [hx]

theorem revert_atomicity_witness :
    exec sigOkTrue c4State (.submitEncryptedResponses 3 0 1
      [{ handle := 41, val := 5 }, { handle := 0, val := 9 }]) =
      .error .NotInitialized ∧
    step sigOkTrue c4State (.submitEncryptedResponses 3 0 1
      [{ handle := 41, val := 5 }, { handle := 0, val := 9 }]) = c4State :=
  (revert_atomicity sigOkTrue c4State (.closeBatch 8 0) .NotOwner rfl).2
    3 0 1 5 9 41 rfl rfl (by decide) rfl (by decide)

theorem exec_ok_batches_shape (sigOk : Nat → List Nat → Nat → Bool)
    (s : ContractState) (c : Call) (s2 : ContractState)
    (hE : exec sigOk s c = .ok s2) :
    (s2.batches = s.batches ∧ s2.currentBatchId = s.currentBatchId) ∨
    (s2.currentBatchId = s.currentBatchId + 1 ∧
     ∃ newB, s2.batches = upd s.batches (s.currentBatchId + 1) newB) ∨
    (∃ bid newB, (s.batches bid).open_ = true ∧
     s2.currentBatchId = s.currentBatchId ∧
     s2.batches = upd s.batches bid newB) := by
  cases c with
  | transferOwnership sender newOwner =>
    rw [exec_transferOwnership] at hE
    unfold transferOwnership at hE
    split at hE
    · exact absurd hE (by simp)
    · injection hE with hE
      subst hE
      exact Or.inl ⟨rfl, rfl⟩
  | addProvider sender provider =>
    rw [exec_addProvider] at hE
    unfold addProvider at hE
    split at hE
    · exact absurd hE (by simp)
    · injection hE with hE
      subst hE
      exact Or.inl ⟨rfl, rfl⟩
  | removeProvider sender provider =>
    rw [exec_removeProvider] at hE
    unfold removeProvider at hE
    split at hE
    · exact absurd hE (by simp)
    · injection hE with hE
      subst hE
      exact Or.inl ⟨rfl, rfl⟩
  | setPaused sender p =>
    rw [exec_setPaused] at hE
    unfold setPaused at hE
    split at hE
    · exact absurd hE (by simp)
    split at hE
    · exact absurd hE (by simp)
    · injection hE with hE
      subst hE
      exact Or.inl ⟨rfl, rfl⟩
  | setCooldownSeconds sender n =>
    rw [exec_setCooldownSeconds] at hE
    unfold setCooldownSeconds at hE
    split at hE
    · exact absurd hE (by simp)
    split at hE
    · exact absurd hE (by simp)
    · injection hE with hE
      subst hE
      exact Or.inl ⟨rfl, rfl⟩
  | openBatch sender =>
    rw [exec_openBatch] at hE
    unfold openBatch at hE
    split at hE
    · exact absurd hE (by simp)
    split at hE
    · exact absurd hE (by simp)
    · injection hE with hE
      subst hE
      exact Or.inr (Or.inl ⟨rfl, _, rfl⟩)
  | closeBatch sender batchId =>
    rw [exec_closeBatch] at hE
    unfold closeBatch at hE
    split at hE
    · exact absurd hE (by simp)
    split at hE
    · exact absurd hE (by simp)
    split at hE
    · exact absurd hE (by simp)
    dsimp only at hE
    split at hE
    · exact absurd hE (by simp)
    · rename_i hopen
      injection hE with hE
      subst hE
      refine Or.inr (Or.inr ⟨batchId, _, ?_, rfl, rfl⟩)
      cases hob : (s.batches batchId).open_
      · exact absurd hob hopen
      · rfl
  | submitEncryptedResponses sender now batchId rs =>
    rw [exec_submit] at hE
    unfold submitEncryptedResponses at hE
    split at hE
    · exact absurd hE (by simp)
    split at hE
    · exact absurd hE (by simp)
    split at hE
    · exact absurd hE (by simp)
    dsimp only at hE
    split at hE
    · exact absurd hE (by simp)
    rename_i hopen
    split at hE
    · exact absurd hE (by simp)
    · injection hE with hE
      subst hE
      refine Or.inr (Or.inr ⟨batchId, _, ?_, rfl, rfl⟩)
      cases hob : (s.batches batchId).open_
      · exact absurd hob hopen
      · rfl
  | requestBatchSummaryDecryption sender now batchId =>
    rw [exec_request] at hE
    unfold requestBatchSummaryDecryption at hE
    split at hE
    · exact absurd hE (by simp)
    split at hE
    · exact absurd hE (by simp)
    split at hE
    · exact absurd hE (by simp)
    dsimp only at hE
    split at hE
    · exact absurd hE (by simp)
    · injection hE with hE
      subst hE
      exact Or.inl ⟨rfl, rfl⟩
  | myCallback requestId cleartexts pf =>
    rw [exec_myCallback] at hE
    unfold myCallback at hE
    split at hE
    · exact absurd hE (by simp)
    dsimp only at hE
    split at hE
    · exact absurd hE (by simp)
    split at hE
    · exact absurd hE (by simp)
    split at hE
    · injection hE with hE
      subst hE
      exact Or.inl ⟨rfl, rfl⟩
    · exact absurd hE (by simp)

theorem step_keeps_closed (sigOk : Nat → List Nat → Nat → Bool)
    (s : ContractState) (c : Call) (b : Nat)
    (hb : b ≤ s.currentBatchId) (hc : (s.batches b).open_ = false) :
    (step sigOk s c).batches b = s.batches b ∧
    s.currentBatchId ≤ (step sigOk s c).currentBatchId := by
  cases hE : exec sigOk s c with
  | error e =>
    have hs : step sigOk s c = s := by
      unfold step
      rw [hE]
    rw [hs]
    exact ⟨rfl, le_refl _⟩
  | ok s2 =>
    have hs : step sigOk s c = s2 := by
      unfold step
      rw [hE]
    rw [hs]
    rcases exec_ok_batches_shape sigOk s c s2 hE with
      ⟨hbs, hcb⟩ | ⟨hcb, newB, hbs⟩ | ⟨bid, newB, hbid, hcb, hbs⟩
    · rw [hbs, hcb]
      exact ⟨rfl, le_refl _⟩
    · refine ⟨?_, by omega⟩
      rw [hbs]
      unfold upd
      rw [if_neg (by omega)]
    · refine ⟨?_, by omega⟩
      rw [hbs]
      unfold upd
      have hne : b ≠ bid := by
        intro hbb
        rw [hbb] at hc
        rw [hc] at hbid
        exact Bool.noConfusion hbid
      rw [if_neg hne]

theorem run_keeps_closed (sigOk : Nat → List Nat → Nat → Bool)
    (s : ContractState) (calls : List Call) (b : Nat)
    (hb : b ≤ s.currentBatchId) (hc : (s.batches b).open_ = false) :
    (run sigOk s calls).batches b = s.batches b ∧
    s.currentBatchId ≤ (run sigOk s calls).currentBatchId := by
  induction calls generalizing s with
  | nil => exact ⟨rfl, le_refl _⟩
  | cons c cs ih =>
    have h1 := step_keeps_closed sigOk s c b hb hc
    have hb2 : b ≤ (step sigOk s c).currentBatchId := le_trans hb h1.2
    have hc2 : ((step sigOk s c).batches b).open_ = false := by
      rw [h1.1]
      exact hc
    have h2 := ih (step sigOk s c) hb2 hc2
    refine ⟨?_, le_trans h1.2 h2.2⟩
    show (run sigOk (step sigOk s c) cs).batches b = s.batches b
    rw [h2.1, h1.1]

/-- C6: a batch b at or below currentBatchId whose open field is false
(every batch that was ever closed is such a batch, since closing targets
currentBatchId and currentBatchId never decreases) stays entirely frozen
under every sequence of entry-point calls: its whole record — open flag,
encryptedTotalResponseSum and totalEncryptedResponses ciphertexts — never
changes, its open field never becomes true again, and any
submitEncryptedResponses call targeting it that passes the provider,
pause and cooldown guards reverts with BatchClosed and commits nothing. -/
theorem closed_batch_stays_closed (sigOk : Nat → List Nat → Nat → Bool)
    (s : ContractState) (b : Nat)
    (hb : b ≤ s.currentBatchId) (hc : (s.batches b).open_ = false) :
    (∀ calls, (run sigOk s calls).batches b = s.batches b ∧
              ((run sigOk s calls).batches b).open_ = false) ∧
    (∀ sender now rs,
       s.isProvider sender = true → s.paused = false →
       s.lastSubmissionTime sender + s.cooldownSeconds ≤ now →
       exec sigOk s (.submitEncryptedResponses sender now b rs) = .error .BatchClosed ∧
       step sigOk s (.submitEncryptedResponses sender now b rs) = s) := by
  constructor
  · intro calls
    have h := run_keeps_closed sigOk s calls b hb hc
    refine ⟨h.1, ?_⟩
    rw [h.1]
    exact hc
  · intro sender now rs hprov hpause hcd
    have hx : exec sigOk s (.submitEncryptedResponses sender now b rs) =
        .error .BatchClosed := by
      rw [exec_submit]
      unfold submitEncryptedResponses
      simp [hprov, hpause, Nat.not_lt.mpr hcd, hc]
    refine ⟨hx, ?_⟩
    unfold step
    rw [hx]


theorem closed_batch_stays_closed_witness :
    ((run sigOkTrue c6State [.openBatch 7]).batches 1).open_ = false ∧
    exec sigOkTrue c6State (.submitEncryptedResponses 3 0 1
      [{ handle := 41, val := 5 }]) = .error .BatchClosed :=
  ⟨((closed_batch_stays_closed sigOkTrue c6State 1 (by decide) rfl).1 [.openBatch 7]).2,
   ((closed_batch_stays_closed sigOkTrue c6State 1 (by decide) rfl).2 3 0
      [{ handle := 41, val := 5 }] rfl rfl (by decide)).1⟩

theorem batchesInv_initial (deployer addr : Nat) :
    BatchesInv (initialState deployer addr) :=
  ⟨rfl, fun _ _ => rfl⟩

theorem step_batchesInv (sigOk : Nat → List Nat → Nat → Bool)
    (s : ContractState) (c : Call) (hI : BatchesInv s) :
    BatchesInv (step sigOk s c) := by
  cases hE : exec sigOk s c with
  | error e =>
    have hs : step sigOk s c = s := by
      unfold step
      rw [hE]
    rw [hs]
    exact hI
  | ok s2 =>
    have hs : step sigOk s c = s2 := by
      unfold step
      rw [hE]
    rw [hs]
    rcases exec_ok_batches_shape sigOk s c s2 hE with
      ⟨hbs, hcb⟩ | ⟨hcb, newB, hbs⟩ | ⟨bid, newB, hbid, hcb, hbs⟩
    · exact ⟨by rw [hbs]; exact hI.1, fun b hgt => by
        rw [hbs]
        exact hI.2 b (by rw [hcb] at hgt; exact hgt)⟩
    · constructor
      · rw [hbs]
        unfold upd
        rw [if_neg (by omega)]
        exact hI.1
      · intro b hgt
        rw [hcb] at hgt
        rw [hbs]
        unfold upd
        rw [if_neg (by omega)]
        exact hI.2 b (by omega)
    · have hbid0 : bid ≠ 0 := by
        intro hb0
        rw [hb0, hI.1] at hbid
        exact Bool.noConfusion hbid
      have hbidle : bid ≤ s.currentBatchId := by
        by_contra hgt
        rw [hI.2 bid (by omega)] at hbid
        exact Bool.noConfusion hbid
      constructor
      · rw [hbs]
        unfold upd
        rw [if_neg (by omega)]
        exact hI.1
      · intro b hgt
        rw [hcb] at hgt
        rw [hbs]
        unfold upd
        rw [if_neg (by omega)]
        exact hI.2 b hgt

theorem run_batchesInv (sigOk : Nat → List Nat → Nat → Bool)
    (s : ContractState) (calls : List Call) (hI : BatchesInv s) :
    BatchesInv (run sigOk s calls) := by
  induction calls generalizing s with
  | nil => exact hI
  | cons c cs ih => exact ih (step sigOk s c) (step_batchesInv sigOk s c hI)

/-- C9: in any state satisfying BatchesInv (true of the deployed state and
preserved by every call), requestBatchSummaryDecryption by the
administrator, while not paused and with the cooldown elapsed, succeeds
for a batchId that was never opened — batch 0 or any id above
currentBatchId — because the absent batch's open field defaults to false,
and it records a DecryptionContext whose fingerprint is computed over the
two uninitialized (zero) ciphertext handles of that nonexistent batch. -/
theorem request_succeeds_unopened (s : ContractState) (b sender now : Nat)
    (hI : BatchesInv s) (hb : b = 0 ∨ s.currentBatchId < b)
    (ho : sender = s.owner) (hp : s.paused = false)
    (hcd : s.lastDecryptionRequestTime sender + s.cooldownSeconds ≤ now) :
    requestBatchSummaryDecryption sender now b s =
      .ok { s with
            lastDecryptionRequestTime := upd s.lastDecryptionRequestTime sender now
            nextRequestId := s.nextRequestId + 1
            decryptionContexts := upd s.decryptionContexts s.nextRequestId
              { batchId := b, stateHash := B32.keccakEnc [0, 0] s.thisAddr,
                processed := false } } := by
  have hdef : s.batches b = default := by
    rcases hb with hb0 | hgt
    · rw [hb0]
      exact hI.1
    · exact hI.2 b hgt
  unfold requestBatchSummaryDecryption
  rw [if_neg (by rw [ho]; exact fun h => h rfl)]
  rw [hp]
  rw [if_neg (by simp)]
  rw [if_neg (by omega)]
  dsimp only
  rw [hdef]
  rfl

theorem request_succeeds_unopened_witness :
    requestBatchSummaryDecryption 11 0 5 (initialState 11 42) =
      .ok { initialState 11 42 with
            lastDecryptionRequestTime :=
              upd (initialState 11 42).lastDecryptionRequestTime 11 0
            nextRequestId := 2
            decryptionContexts := upd (initialState 11 42).decryptionContexts 1
              { batchId := 5, stateHash := B32.keccakEnc [0, 0] 42,
                processed := false } } :=
  request_succeeds_unopened (initialState 11 42) 5 11 0
    (batchesInv_initial 11 42) (Or.inr (by decide)) rfl rfl (by decide)






theorem accumLoop_val (rs : List Ciph) (acc : Ciph) (h : Nat) (c : Ciph) (h2 : Nat)
    (hv : acc.val < 2^32) (hE : accumLoop acc h rs = .ok (c, h2)) :
    c.val = (acc.val + (rs.map Ciph.val).sum) % 2^32 := by
  induction rs generalizing acc h with
  | nil =>
    unfold accumLoop at hE
    injection hE with hE
    injection hE with hE1 hE2
    subst hE1
    simp
    omega
  | cons r rest ih =>
    unfold accumLoop at hE
    split at hE
    · exact absurd hE (by simp)
    · dsimp only at hE
      have hv2 : (fheAdd acc r h).1.val < 2^32 := Nat.mod_lt _ (by norm_num)
      have := ih (fheAdd acc r h).1 (fheAdd acc r h).2 hv2 hE
      rw [this]
      show ((acc.val + r.val) % 2^32 + (rest.map Ciph.val).sum) % 2^32 = _
      rw [Nat.mod_add_mod, Nat.add_assoc]
      simp

theorem submit_ok_val (sender now batchId : Nat) (rs : List Ciph)
    (s s2 : ContractState)
    (hE : submitEncryptedResponses sender now batchId rs s = .ok s2)
    (hv : (s.batches batchId).encryptedTotalResponseSum.val < 2^32)
    (hc : (s.batches batchId).totalEncryptedResponses.val < 2^32) :
    (s2.batches batchId).encryptedTotalResponseSum.val =
      ((s.batches batchId).encryptedTotalResponseSum.val + (rs.map Ciph.val).sum) % 2^32 ∧
    (s2.batches batchId).totalEncryptedResponses.val =
      ((s.batches batchId).totalEncryptedResponses.val + rs.length) % 2^32 := by
  unfold submitEncryptedResponses at hE
  split at hE
  · exact absurd hE (by simp)
  split at hE
  · exact absurd hE (by simp)
  split at hE
  · exact absurd hE (by simp)
  dsimp only at hE
  split at hE
  · exact absurd hE (by simp)
  split at hE
  · exact absurd hE (by simp)
  · rename_i sumCt h1 heq
    injection hE with hE
    subst hE
    constructor
    · simp only [upd, if_pos rfl]
      exact accumLoop_val rs _ _ _ _ hv heq
    · simp only [upd, if_pos rfl]
      show ((s.batches batchId).totalEncryptedResponses.val + rs.length % 2^32) % 2^32 = _
      rw [Nat.add_mod_mod]

theorem submitMany_val (batchId : Nat) (groups : List (Nat × Nat × List Ciph))
    (s s2 : ContractState)
    (hE : submitMany batchId s groups = .ok s2)
    (hv : (s.batches batchId).encryptedTotalResponseSum.val < 2^32)
    (hc : (s.batches batchId).totalEncryptedResponses.val < 2^32) :
    (s2.batches batchId).encryptedTotalResponseSum.val =
      ((s.batches batchId).encryptedTotalResponseSum.val + plainSum groups) % 2^32 ∧
    (s2.batches batchId).totalEncryptedResponses.val =
      ((s.batches batchId).totalEncryptedResponses.val + plainCount groups) % 2^32 := by
  induction groups generalizing s with
  | nil =>
    unfold submitMany at hE
    injection hE with hE
    subst hE
    refine ⟨?_, ?_⟩ <;> simp [plainSum, plainCount] <;> omega
  | cons g gs ih =>
    unfold submitMany at hE
    split at hE
    · exact absurd hE (by simp)
    · rename_i s3 heq
      have h1 := submit_ok_val g.1 g.2.1 batchId g.2.2 s s3 heq hv hc
      have hv3 : (s3.batches batchId).encryptedTotalResponseSum.val < 2^32 := by
        rw [h1.1]
        exact Nat.mod_lt _ (by norm_num)
      have hc3 : (s3.batches batchId).totalEncryptedResponses.val < 2^32 := by
        rw [h1.2]
        exact Nat.mod_lt _ (by norm_num)
      have h2 := ih s3 hE hv3 hc3
      constructor
      · rw [h2.1, h1.1, Nat.mod_add_mod, Nat.add_assoc]
        simp [plainSum]
      · rw [h2.2, h1.2, Nat.mod_add_mod, Nat.add_assoc]
        simp [plainCount]

/-- C5 (amended): over any sequence of successful submitEncryptedResponses
calls on a single batch, the batch's encrypted sum decrypts to the
arithmetic sum of all submitted plaintext values reduced modulo 2^32 (the
euint32 accumulator wraps) and its encrypted count decrypts to the total
number of submitted values modulo 2^32; the decrypted totals depend only
on the multiset of submitted values, so any regrouping of the same values
into calls yields identical decrypted totals; and whenever the true
arithmetic totals fit below 2^32 (starting from a freshly opened batch,
whose accumulators decrypt to 0) the decrypted totals equal them
exactly. -/
theorem submit_accumulation (batchId : Nat) (s : ContractState)
    (groupsA groupsB : List (Nat × Nat × List Ciph)) (sA sB : ContractState)
    (hv : (s.batches batchId).encryptedTotalResponseSum.val < 2^32)
    (hc : (s.batches batchId).totalEncryptedResponses.val < 2^32)
    (hA : submitMany batchId s groupsA = .ok sA)
    (hB : submitMany batchId s groupsB = .ok sB)
    (hsum : plainSum groupsB = plainSum groupsA)
    (hlen : plainCount groupsB = plainCount groupsA) :
    ((sA.batches batchId).encryptedTotalResponseSum.val =
       ((s.batches batchId).encryptedTotalResponseSum.val + plainSum groupsA) % 2^32) ∧
    ((sA.batches batchId).totalEncryptedResponses.val =
       ((s.batches batchId).totalEncryptedResponses.val + plainCount groupsA) % 2^32) ∧
    ((sB.batches batchId).encryptedTotalResponseSum.val =
       (sA.batches batchId).encryptedTotalResponseSum.val) ∧
    ((sB.batches batchId).totalEncryptedResponses.val =
       (sA.batches batchId).totalEncryptedResponses.val) ∧
    ((s.batches batchId).encryptedTotalResponseSum.val = 0 →
       plainSum groupsA < 2^32 →
       (sA.batches batchId).encryptedTotalResponseSum.val = plainSum groupsA) ∧
    ((s.batches batchId).totalEncryptedResponses.val = 0 →
       plainCount groupsA < 2^32 →
       (sA.batches batchId).totalEncryptedResponses.val = plainCount groupsA) := by
  have hA2 := submitMany_val batchId groupsA s sA hA hv hc
  have hB2 := submitMany_val batchId groupsB s sB hB hv hc
  refine ⟨hA2.1, hA2.2, ?_, ?_, ?_, ?_⟩
  · rw [hA2.1, hB2.1, hsum]
  · rw [hA2.2, hB2.2, hlen]
  · intro h0 hlt
    rw [hA2.1, h0, Nat.zero_add, Nat.mod_eq_of_lt hlt]
  · intro h0 hlt
    rw [hA2.2, h0, Nat.zero_add, Nat.mod_eq_of_lt hlt]

theorem submit_accumulation_witness :
    ((c5AfterA.batches 1).encryptedTotalResponseSum.val = (0 + plainSum c5GroupsA) % 2^32) ∧
    ((c5AfterB.batches 1).encryptedTotalResponseSum.val =
      (c5AfterA.batches 1).encryptedTotalResponseSum.val) ∧
    ((c5AfterA.batches 1).encryptedTotalResponseSum.val = plainSum c5GroupsA) := by
  have h := submit_accumulation 1 c5State c5GroupsA c5GroupsB c5AfterA c5AfterB
    (by decide) (by decide) rfl rfl (by decide) (by decide)
  exact ⟨h.1, h.2.2.1, h.2.2.2.2.1 rfl (by decide)⟩

/-- C5 counterexample: submitting the plaintext values 2^31 and 2^31 into
open batch 1 (two successful calls) yields an encrypted sum that decrypts
to 0, while the arithmetic sum of the submitted values is 2^32 ≠ 0 — the
euint32 accumulator wraps, so the decrypted final sum is not the
unbounded arithmetic sum the claim states. -/
theorem submit_accumulation_cex :
    c5DecryptedSum = some 0 ∧
    plainSum c5OverflowGroups = 2^32 ∧
    (0 : Nat) ≠ 2^32 := by
  refine ⟨rfl, by decide, by decide⟩
